import Mathlib

/-!
Verification development for the JobTrack link-analysis pipeline
(`src/backend/services/analyzeJobLinks.js`).

The JavaScript source is shallowly embedded: pure fragments become Lean
functions over `String` / `List Char`; effectful fragments (browser fetch,
OpenAI call, workbook write) are modelled as pure functions parameterised by
an explicit oracle describing the outcome of each external step, returning
the value the JS code would return together with a trace of the observable
actions (delays slept, attempts made, events performed).

The embedding of `new URL(...)` covers hierarchical `scheme://host/path?q#f`
URLs: `host` plays the role of the authority (hostname, possibly with port),
`pathname` is the path with query and fragment stripped (defaulting to "/"),
and `origin` is `scheme ++ "://" ++ host`.  This is the fragment of the
WHATWG URL parser the pipeline exercises (http/https job links).
-/

namespace JobTrack

/-! ## String search primitives (JS `includes` / `indexOf` on `List Char`) -/

/-- Index of the first occurrence of `sep` in `l` (JS `String.prototype.indexOf`),
`none` when absent. -/
def firstOcc (sep : List Char) : List Char → Option Nat
  | [] => if sep.isPrefixOf ([] : List Char) then some 0 else none
  | c :: cs =>
    if sep.isPrefixOf (c :: cs) then some 0
    else (firstOcc sep cs).map (· + 1)

/-- JS `String.prototype.includes` on char lists. -/
def containsSeq (l sep : List Char) : Bool :=
  (firstOcc sep l).isSome

/-- JS `String.prototype.includes` on strings. -/
def strIncludes (s sub : String) : Bool :=
  containsSeq s.data sub.data

/-! ## URL model -/

/-- The parts of a parsed URL that the pipeline uses. -/
structure URLParts where
  scheme : List Char
  host : List Char
  pathname : List Char
  deriving Repr, DecidableEq

/-- `origin` of a parsed URL: `scheme ++ "://" ++ host`. -/
def URLParts.originL (u : URLParts) : List Char :=
  u.scheme ++ [':', '/', '/'] ++ u.host

/-- Characters that terminate the authority component. -/
def hostChar (c : Char) : Bool :=
  c ≠ '/' && c ≠ '?' && c ≠ '#'

/-- Characters that belong to the path (terminated by query/fragment). -/
def pathChar (c : Char) : Bool :=
  c ≠ '?' && c ≠ '#'

/-- A syntactically valid scheme: a letter followed by letters, digits,
`+`, `.` or `-`. -/
def schemeOk (s : List Char) : Bool :=
  match s with
  | [] => false
  | c :: cs => c.isAlpha && cs.all (fun d => d.isAlphanum || d = '+' || d = '.' || d = '-')

/-- Model of JS `new URL(s)` restricted to hierarchical URLs: returns the
scheme, authority and query/fragment-stripped path (`"/"` when the path is
empty), or `none` when the string does not parse (the JS constructor
throws). -/
def parseURL (s : List Char) : Option URLParts :=
  match firstOcc [':', '/', '/'] s with
  | none => none
  | some i =>
    let scheme := s.take i
    let rest := s.drop (i + 3)
    if schemeOk scheme then
      let host := rest.takeWhile hostChar
      let afterHost := rest.dropWhile hostChar
      if host.isEmpty then none
      else
        let p := afterHost.takeWhile pathChar
        some { scheme := scheme, host := host, pathname := if p.isEmpty then ['/'] else p }
    else none

/-- `"applytojob.com"` as a char list (the hard-coded apply-proxy domain). -/
def applyToJobDomain : List Char := "applytojob.com".data

/-- `"/apply"` as a char list. -/
def applySeg : List Char := "/apply".data

/-- The link normalizer of `analyzeJobLinks` (lines 354-369 of
`analyzeJobLinks.js`), on char lists:
if the URL parses, an apply-proxy host keeps `origin + pathname`; otherwise a
path containing `"/apply"` is truncated at its first occurrence; otherwise
`origin + pathname`; a non-URL string is returned unchanged. -/
def refineList (link : List Char) : List Char :=
  match parseURL link with
  | none => link
  | some u =>
    if containsSeq u.host applyToJobDomain then
      u.originL ++ u.pathname
    else
      match firstOcc applySeg u.pathname with
      | some idx => u.originL ++ u.pathname.take idx
      | none => u.originL ++ u.pathname

/-- The link normalizer on strings. -/
def refineLink (s : String) : String :=
  ⟨refineList s.data⟩

/-! ## JS whitespace trim -/

/-- JS-style whitespace (the characters job links/titles realistically carry). -/
def jsWhitespace (c : Char) : Bool :=
  c = ' ' || c = '\t' || c = '\n' || c = '\r'

/-- JS `String.prototype.trim` on char lists. -/
def trimList (l : List Char) : List Char :=
  ((l.dropWhile jsWhitespace).reverse.dropWhile jsWhitespace).reverse

/-- JS `String.prototype.trim` on strings. -/
def jsTrim (s : String) : String :=
  ⟨trimList s.data⟩

/-- JS `String.prototype.startsWith` on strings. -/
def strStartsWith (s pre : String) : Bool :=
  pre.data.isPrefixOf s.data

/-! ## Classification data model -/

/-- The fixed stack vocabulary (`STACK_LIST`). -/
def STACK_LIST : List String :=
  ["Frontend", "Backend", "Fullstack", "DevOps", "QA", "Mobile",
   "Data Science", "Data Engineer", "Data Analyst", "ML Engineer",
   "AI Engineer", "Software Engineer", "Cloud Engineer",
   "Database Administrator", "Network Engineer",
   "Site Reliability Engineer", "UX/UI Designer"]

/-- `SALARY_BUCKETS` from the source. -/
def SALARY_BUCKETS : List String :=
  ["30K <", "60K <", "100K <", "160K <", "200K <", "N/A"]

/-- `LEVEL_VALUES` from the source (note: includes the misspelling
`"Principle"`, which validation rewrites to `"Principal"`). -/
def LEVEL_VALUES : List String :=
  ["Middle", "Senior", "Staff", "Principal", "Principle", "Lead", "Architect", "N/A"]

/-- The valid `remote` values (`validRemote` in `classifyWithOpenAI`). -/
def validRemote : List String :=
  ["Remote", "Hybrid", "On-site", "N/A"]

/-- The valid `industry` values checked by `classifyWithOpenAI` (note: the
empty string is accepted and then rewritten to `"N/A"` by `parsed.industry
|| "N/A"`). -/
def validIndustry : List String :=
  ["finance", "healthcare", "N/A", ""]

/-- Output of the Classifier for one row. -/
structure Classification where
  remote : String
  bestStack : String
  allPossibleStacks : List String
  hasSpecialPhrase : Bool
  matchedSpecialPhrases : List String
  industry : String
  annualSalary : String
  levelField : String
  deriving Repr, DecidableEq

/-- `DEFAULT_CLASSIFICATION` from the source. -/
def DEFAULT_CLASSIFICATION : Classification :=
  { remote := "N/A", bestStack := "N/A", allPossibleStacks := [],
    hasSpecialPhrase := false, matchedSpecialPhrases := [],
    industry := "N/A", annualSalary := "N/A", levelField := "N/A" }

/-- Untrusted JSON values as returned by the model (arrays are modelled as
string arrays, the shape the validator's array branches preserve). -/
inductive JVal where
  | jnull
  | jbool (b : Bool)
  | jnum (n : Int)
  | jstr (s : String)
  | jarr (xs : List String)
  deriving Repr, DecidableEq

/-- JS truthiness (`Boolean(x)`) for the modelled JSON values. -/
def JVal.truthy : JVal → Bool
  | .jnull => false
  | .jbool b => b
  | .jnum n => n ≠ 0
  | .jstr s => s ≠ ""
  | .jarr _ => true

/-- The parsed (pre-validation) reply of the classification service: every
field is an arbitrary JSON value. -/
structure ParsedReply where
  remote : JVal
  bestStack : JVal
  allPossibleStacks : JVal
  hasSpecialPhrase : JVal
  matchedSpecialPhrases : JVal
  industry : JVal
  annualSalary : JVal
  levelField : JVal
  deriving Repr, DecidableEq

/-- The per-field validation/coercion `classifyWithOpenAI` applies to a
successfully parsed reply (lines 268-288 of `analyzeJobLinks.js`). -/
def validateReply (p : ParsedReply) : Classification :=
  { remote :=
      match p.remote with
      | .jstr s => if s ∈ validRemote then s else "N/A"
      | _ => "N/A"
    bestStack :=
      match p.bestStack with
      | .jstr s => if jsTrim s = "" then "N/A" else jsTrim s
      | _ => "N/A"
    allPossibleStacks :=
      match p.allPossibleStacks with
      | .jarr xs => xs
      | _ => []
    hasSpecialPhrase := p.hasSpecialPhrase.truthy
    matchedSpecialPhrases :=
      match p.matchedSpecialPhrases with
      | .jarr xs => xs
      | _ => []
    industry :=
      match p.industry with
      | .jstr s => if s ∈ validIndustry then (if s = "" then "N/A" else s) else "N/A"
      | _ => "N/A"
    annualSalary :=
      match p.annualSalary with
      | .jstr s => if s ∈ SALARY_BUCKETS then s else "N/A"
      | _ => "N/A"
    levelField :=
      match p.levelField with
      | .jstr s =>
        if s ∈ LEVEL_VALUES then (if s = "Principle" then "Principal" else s) else "N/A"
      | _ => "N/A" }

/-! ## Classifier call loop (`classifyWithOpenAI`) -/

/-- A JS error as observed by the retry loops: an error `code` and a
`message`. -/
structure JsErr where
  code : String
  msg : String
  deriving Repr, DecidableEq

/-- The transient-error predicate of `classifyWithOpenAI` (line 291):
connection-class codes, or a message containing `401`, `Connection` or
`timeout`. -/
def isConnectionError (e : JsErr) : Bool :=
  e.code = "ECONNREFUSED" || e.code = "ETIMEDOUT" || e.code = "ENOTFOUND" ||
  strIncludes e.msg "401" || strIncludes e.msg "Connection" || strIncludes e.msg "timeout"

/-- Outcome of one classification attempt (network call + JSON parse):
either a parsed reply or a thrown error. -/
abbrev AttemptOutcome := Except JsErr ParsedReply

/-- Result of a classifier run: the classification, the backoff delays slept
(milliseconds, in order), and the number of attempts performed. -/
structure ClassifyRun where
  result : Classification
  delays : List Nat
  attempts : Nat
  deriving Repr, DecidableEq

/-- The retry loop of `classifyWithOpenAI` (lines 245-316): attempts
`attempt, attempt+1, ...` up to `maxRetries`; a successful attempt returns
the validated reply; a failed attempt sleeps `2^(attempt-1) * 1000` ms when
the error is transient and more attempts remain; after the final attempt the
default classification is returned. -/
def classifyLoop (oracle : Nat → AttemptOutcome) (maxRetries : Nat)
    (attempt : Nat) (delays : List Nat) : ClassifyRun :=
  if _h : maxRetries < attempt then
    { result := DEFAULT_CLASSIFICATION, delays := delays, attempts := attempt - 1 }
  else
    match oracle attempt with
    | .ok parsed => { result := validateReply parsed, delays := delays, attempts := attempt }
    | .error e =>
      let delays' :=
        if isConnectionError e ∧ attempt < maxRetries then
          delays ++ [2 ^ (attempt - 1) * 1000]
        else delays
      classifyLoop oracle maxRetries (attempt + 1) delays'
termination_by maxRetries + 1 - attempt
decreasing_by omega

/-- `classifyWithOpenAI(jobTitle, pageContent, apiKey, maxRetries)` (lines
228-317), with the network modelled by `oracle`: an absent (empty) or
malformed credential short-circuits to the default classification with zero
attempts; otherwise the retry loop runs from attempt 1. -/
def classifyWithOpenAI (apiKey : String) (oracle : Nat → AttemptOutcome)
    (maxRetries : Nat) : ClassifyRun :=
  if apiKey = "" then
    { result := DEFAULT_CLASSIFICATION, delays := [], attempts := 0 }
  else if ¬ strStartsWith apiKey "sk-" then
    { result := DEFAULT_CLASSIFICATION, delays := [], attempts := 0 }
  else
    classifyLoop oracle maxRetries 1 []

/-! ## Workbook write retry (`writeWorkbookWithRetry`) -/

/-- `WRITE_RETRIES` from the source. -/
def WRITE_RETRIES : Nat := 5

/-- `WRITE_RETRY_DELAY_MS` from the source. -/
def WRITE_RETRY_DELAY_MS : Nat := 1500

/-- The distinguished busy message raised after exhausting EBUSY retries. -/
def busyMessage : String :=
  "JobLinks.xlsx is busy or locked. Please close it in Excel (or any other program) and try again."

/-- Result of `writeWorkbookWithRetry`: success (with the attempt that
succeeded), the distinguished busy error, or a rethrown generic error; each
carries the delays slept (milliseconds, in order). -/
inductive WriteResult where
  | ok (attemptsUsed : Nat) (delays : List Nat)
  | errBusy (msg : String) (code : String) (delays : List Nat)
  | errOther (e : JsErr) (delays : List Nat)
  deriving Repr, DecidableEq

/-- The retry loop of `writeWorkbookWithRetry` (lines 134-157): `fault a`
is the error thrown by the `a`-th write, `none` when it succeeds.  EBUSY
before the last attempt sleeps `1500 * attempt` ms and retries; EBUSY on the
last attempt raises the distinguished busy error; any other error is
rethrown immediately. -/
def writeAttempts (fault : Nat → Option JsErr) (attempt : Nat)
    (delays : List Nat) : WriteResult :=
  if _h : WRITE_RETRIES < attempt then .errOther ⟨"", ""⟩ delays
  else
    match fault attempt with
    | none => .ok attempt delays
    | some e =>
      if e.code = "EBUSY" then
        if _h2 : attempt < WRITE_RETRIES then
          writeAttempts fault (attempt + 1) (delays ++ [WRITE_RETRY_DELAY_MS * attempt])
        else .errBusy busyMessage "EBUSY" delays
      else .errOther e delays
termination_by WRITE_RETRIES + 1 - attempt
decreasing_by omega

/-- `writeWorkbookWithRetry(workbook, filePath)` with the filesystem
modelled by `fault`. -/
def writeWorkbookWithRetry (fault : Nat → Option JsErr) : WriteResult :=
  writeAttempts fault 1 []

/-! ## Content fetcher (`fetchPageContent`) -/

/-- Observable actions of a `fetchPageContent` run, in the order the code
performs them. -/
inductive FetchEv where
  | launch
  | newContext
  | newPage
  | goto (url : String)
  | waitMs (n : Nat)
  | wheel
  | evalMain
  | evalFrameOk
  | evalFrameErr
  | warnLog
  | closePage
  | closeBrowser
  deriving Repr, DecidableEq

/-- Environment describing the outcomes of the external rendering steps of
one `fetchPageContent` call: whether the browser launch and the navigation
throw, the main-frame text, and each sub-frame's extraction outcome. -/
structure FetchEnv where
  launchErr : Option JsErr
  gotoErr : Option JsErr
  mainText : String
  frames : List (Except JsErr String)

/-- The scroll phase: ten wheel/wait cycles (lines 192-195). -/
def scrollEvents : List FetchEv :=
  (List.replicate 10 [FetchEv.wheel, FetchEv.waitMs 2000]).flatten

/-- Concatenate one sub-frame's text onto the accumulator exactly as lines
201-212 do: a successfully extracted frame with nonempty trimmed text is
appended after a blank line, a failing frame is logged and skipped. -/
def frameStep (acc : String) (f : Except JsErr String) : String :=
  match f with
  | .ok t => if jsTrim t ≠ "" then acc ++ "\n\n" ++ t else acc
  | .error _ => acc

/-- The trace event of one sub-frame extraction. -/
def frameEvent (f : Except JsErr String) : FetchEv :=
  match f with
  | .ok _ => .evalFrameOk
  | .error _ => .evalFrameErr

/-- `fetchPageContent(url)` (lines 164-219) with the browser modelled by
`env`: returns the extracted text together with the trace of performed
actions.  A throw from launch or navigation lands in the outer catch, which
logs a warning and returns the empty string; per-frame failures are absorbed
by the inner catch.  On the success path the page is closed; the browser is
never closed anywhere in the function. -/
def fetchPageContent (env : FetchEnv) (url : String) : String × List FetchEv :=
  match env.launchErr with
  | some _ => ("", [FetchEv.warnLog])
  | none =>
    let pre := [FetchEv.launch, FetchEv.newContext, FetchEv.newPage]
    match env.gotoErr with
    | some _ => ("", pre ++ [FetchEv.warnLog])
    | none =>
      let text := env.frames.foldl frameStep env.mainText
      let evs := pre ++ [FetchEv.goto url, FetchEv.waitMs 12000] ++ scrollEvents ++
        [FetchEv.evalMain] ++ env.frames.map frameEvent ++ [FetchEv.closePage]
      (text, evs)

/-! ## Orchestrator (`analyzeJobLinks`) -/

/-- One table row: an association list from column names to cell values (the
shape `XLSX.utils.sheet_to_json(sheet, { defval: "" })` produces — every row
carries the sheet's full header set, blanks as `""`). -/
abbrev Row := List (String × String)

/-- Lookup of a column in a row (JS property access `row[k]`, `none` for a
missing key). -/
def rowLookup (r : Row) (k : String) : Option String :=
  (r.find? (fun p => p.1 = k)).map Prod.snd

/-- The column names of a row, in order. -/
def headersOf (r : Row) : List String :=
  r.map Prod.fst

/-- JS object-spread assignment `{...r, k: v}` for a single key: replaces
the value in place when the key exists, appends it otherwise. -/
def setKey (r : Row) (k v : String) : Row :=
  match r with
  | [] => [(k, v)]
  | (k', v') :: rest => if k' = k then (k, v) :: rest else (k', v') :: setKey rest k v

/-- Fold `setKey` over a list of assignments, left to right. -/
def setKeys (r : Row) (kvs : List (String × String)) : Row :=
  kvs.foldl (fun acc kv => setKey acc kv.1 kv.2) r

/-- The merged (augmented) row pushed onto `results` for one input row
(lines 374-387): the original row spread together with the run date, the
fixed status marker, the refined link (falling back to the raw link), and
the flattened classification columns. -/
def mergeRow (row : Row) (today link refinedLink : String) (c : Classification) : Row :=
  setKeys row
    [("Date", today),
     ("Status", "Not Applied"),
     ("Link", if refinedLink = "" then link else refinedLink),
     ("Remote", c.remote),
     ("BestStack", c.bestStack),
     ("AllPossibleStacks", String.intercalate ", " c.allPossibleStacks),
     ("SecretRequired", if c.hasSpecialPhrase then "Yes" else "No"),
     ("GovernanceAndSecurityPhrases", String.intercalate "; " c.matchedSpecialPhrases),
     ("Industry", c.industry),
     ("AnnualSalary", c.annualSalary),
     ("Level", c.levelField)]

/-- Result of processing one row: the merged row, the URLs fetched and the
`(title, pageText)` pairs sent to the classifier during that row. -/
structure ProcessOut where
  merged : Row
  fetched : List String
  classified : List (String × String)
  deriving Repr, DecidableEq

/-- The per-row body of the orchestrator loop (lines 348-387), with the
fetcher and classifier abstracted as pure oracles: an empty (or missing)
trimmed link skips normalization/fetch/classify and merges the default
classification; otherwise the link is normalized, fetched and classified. -/
def processRow (row : Row) (today : String) (fetch : String → String)
    (classify : String → String → Classification) : ProcessOut :=
  let link := jsTrim ((rowLookup row "Link").getD "")
  let title := jsTrim ((rowLookup row "Title").getD "")
  if link = "" then
    { merged := mergeRow row today link "" DEFAULT_CLASSIFICATION,
      fetched := [], classified := [] }
  else
    let refined := refineLink link
    let pageText := fetch refined
    let c := classify title pageText
    { merged := mergeRow row today link refined c,
      fetched := [refined], classified := [(title, pageText)] }

/-- The projection applied to each not-yet-processed row before persisting
(lines 391-395): the row is rebuilt over the processed rows' header list,
missing/empty cells becoming `""`. -/
def projectRow (headers : List String) (r : Row) : Row :=
  headers.map (fun h => (h, (rowLookup r h).getD ""))

/-- The orchestrator loop from the point where `results` already holds the
merged rows so far: processes `remaining` one row at a time and returns, in
order, the table snapshot written to storage after each row (line 396-399:
merged prefix followed by the remaining original rows projected onto the
headers of `results[0]`). -/
def runLoop (today : String) (fetch : String → String)
    (classify : String → String → Classification)
    (results : List Row) : List Row → List (List Row)
  | [] => []
  | r :: rest =>
    let merged := (processRow r today fetch classify).merged
    let results' := results ++ [merged]
    let headers := headersOf (results'.headD [])
    let snap := results' ++ rest.map (projectRow headers)
    snap :: runLoop today fetch classify results' rest

/-- All snapshots written to storage during a run over `rows`, in order
(the `i`-th element is the table persisted after processing row `i`). -/
def runSnapshots (rows : List Row) (today : String) (fetch : String → String)
    (classify : String → String → Classification) : List (List Row) :=
  runLoop today fetch classify [] rows

/-- Result of `analyzeJobLinks`: the snapshots written and the returned
file reference. -/
structure AnalyzeResult where
  snapshots : List (List Row)
  filePath : String
  fileName : String
  deriving Repr, DecidableEq

/-- `analyzeJobLinks()` (lines 323-405) over an already-loaded table
`rows` living at `inputPath`: the missing-Link check `rows.length === 0 ||
"Link" in rows[0]` aborts with an error when it fails; otherwise the loop
runs and the input file's path and fixed name are returned. -/
def analyzeJobLinks (rows : List Row) (inputPath today : String)
    (fetch : String → String) (classify : String → String → Classification) :
    Except String AnalyzeResult :=
  if rows.length = 0 ∨ "Link" ∈ headersOf (rows.headD []) then
    .ok { snapshots := runSnapshots rows today fetch classify,
          filePath := inputPath, fileName := "JobLinks.xlsx" }
  else
    .error "JobLinks.xlsx must have a Link column"

/-! ## Theorems -/

/-- C3 counterexample: the first §8 normalization example is false on the
code.  Because the host check for `applytojob.com` takes priority, the
normalizer keeps `origin + pathname` — including the `/apply` suffix — so
`https://boards.applytojob.com/company/abc123/apply?ref=x` does not map to
`https://boards.applytojob.com/company/abc123`. -/
theorem C3_counterexample :
    refineLink "https://boards.applytojob.com/company/abc123/apply?ref=x" ≠
      "https://boards.applytojob.com/company/abc123" := by
  decide

/-- C3 (amended): the apply-proxy example normalizes to
`https://boards.applytojob.com/company/abc123/apply` (origin + pathname,
query dropped, `/apply` kept because the host rule fires first); the two
`jobs.example.com` examples normalize as the spec states. -/
theorem C3_normalization_examples :
    refineLink "https://boards.applytojob.com/company/abc123/apply?ref=x" =
      "https://boards.applytojob.com/company/abc123/apply" ∧
    refineLink "https://jobs.example.com/posting/42/apply/step1" =
      "https://jobs.example.com/posting/42" ∧
    refineLink "https://jobs.example.com/posting/42?utm=y" =
      "https://jobs.example.com/posting/42" := by
  refine ⟨by decide, by decide, by decide⟩

/-- C10: on a table with zero data rows, `analyzeJobLinks` does not raise
the missing-Link-column error (the `rows.length === 0` disjunct makes the
check pass vacuously), performs no save at all (the snapshot list is empty),
and returns the input file's path and name unchanged. -/
theorem C10_empty_table (inputPath today : String) (fetch : String → String)
    (classify : String → String → Classification) :
    analyzeJobLinks [] inputPath today fetch classify =
      .ok { snapshots := [], filePath := inputPath, fileName := "JobLinks.xlsx" } := by
  simp [analyzeJobLinks, runSnapshots, runLoop]

/-- One unfolding of the write loop on a non-final EBUSY failure. -/
lemma writeAttempts_step (fault : Nat → Option JsErr) (attempt : Nat)
    (delays : List Nat) (e : JsErr) (hf : fault attempt = some e)
    (hc : e.code = "EBUSY") (hlt : attempt < WRITE_RETRIES) :
    writeAttempts fault attempt delays =
      writeAttempts fault (attempt + 1) (delays ++ [WRITE_RETRY_DELAY_MS * attempt]) := by
  conv_lhs => rw [writeAttempts]
  have hnot : ¬ WRITE_RETRIES < attempt := by omega
  simp [hnot, hf, hc, hlt]

/-- A run of `j` EBUSY failures followed by a success lands in `.ok`, having
slept `WRITE_RETRY_DELAY_MS * a` for each failed attempt `a`. -/
lemma writeAttempts_busy_run (fault : Nat → Option JsErr) (j : Nat) :
    ∀ attempt delays,
      (∀ a, attempt ≤ a → a < attempt + j → ∃ e, fault a = some e ∧ e.code = "EBUSY") →
      fault (attempt + j) = none → attempt + j ≤ WRITE_RETRIES →
      writeAttempts fault attempt delays =
        .ok (attempt + j)
          (delays ++ (List.range' attempt j).map (fun a => WRITE_RETRY_DELAY_MS * a)) := by
  induction j with
  | zero =>
    intro attempt delays _hb hnone hle
    rw [Nat.add_zero] at hnone
    conv_lhs => rw [writeAttempts]
    have hnot : ¬ WRITE_RETRIES < attempt := by omega
    simp [hnot, hnone]
  | succ j ih =>
    intro attempt delays hb hnone hle
    obtain ⟨e, hf, hc⟩ := hb attempt (le_refl _) (by omega)
    rw [writeAttempts_step fault attempt delays e hf hc (by omega)]
    have hrec := ih (attempt + 1) (delays ++ [WRITE_RETRY_DELAY_MS * attempt])
      (fun a h1 h2 => hb a (by omega) (by omega))
      (by rw [show attempt + 1 + j = attempt + (j + 1) by omega]; exact hnone)
      (by omega)
    rw [hrec]
    have harith : attempt + 1 + j = attempt + (j + 1) := by omega
    rw [harith, List.range'_succ]
    simp

/-- EBUSY on every remaining attempt exhausts the loop into the
distinguished busy error. -/
lemma writeAttempts_busy_exhaust (fault : Nat → Option JsErr) (j : Nat) :
    ∀ attempt delays,
      (∀ a, attempt ≤ a → a ≤ WRITE_RETRIES → ∃ e, fault a = some e ∧ e.code = "EBUSY") →
      attempt + j = WRITE_RETRIES →
      writeAttempts fault attempt delays =
        .errBusy busyMessage "EBUSY"
          (delays ++ (List.range' attempt j).map (fun a => WRITE_RETRY_DELAY_MS * a)) := by
  induction j with
  | zero =>
    intro attempt delays hb hfin
    obtain ⟨e, hf, hc⟩ := hb attempt (by omega) (by omega)
    conv_lhs => rw [writeAttempts]
    have hnot : ¬ WRITE_RETRIES < attempt := by omega
    have hnot2 : ¬ attempt < WRITE_RETRIES := by omega
    simp [hnot, hnot2, hf, hc]
  | succ j ih =>
    intro attempt delays hb hfin
    obtain ⟨e, hf, hc⟩ := hb attempt (by omega) (by omega)
    rw [writeAttempts_step fault attempt delays e hf hc (by omega)]
    rw [ih (attempt + 1) _ (fun a h1 h2 => hb a (by omega) h2) (by omega)]
    rw [List.range'_succ]
    simp

/-- C5: the save retry policy of `writeWorkbookWithRetry`.
(1) If EBUSY contention clears after `k` failed attempts with `k` below the
retry ceiling `WRITE_RETRIES = 5`, the write eventually succeeds at attempt
`k+1`, with a linearly increasing delay `1500 * a` ms after each failed
attempt `a`.
(2) If EBUSY persists through all 5 attempts, the distinguished "resource
busy" error with actionable guidance (`busyMessage`, code `EBUSY`) is
raised after delays 1500, 3000, 4500, 6000 ms.
(3) A generic (non-EBUSY) I/O error on the first attempt is rethrown
immediately, with no retry and no delay. -/
theorem C5_write_retry_policy (fault : Nat → Option JsErr) (k : Nat) :
    (k < WRITE_RETRIES →
      (∀ a, 1 ≤ a → a ≤ k → ∃ e, fault a = some e ∧ e.code = "EBUSY") →
      fault (k + 1) = none →
      writeWorkbookWithRetry fault =
        .ok (k + 1) ((List.range' 1 k).map (fun a => WRITE_RETRY_DELAY_MS * a))) ∧
    ((∀ a, 1 ≤ a → a ≤ WRITE_RETRIES → ∃ e, fault a = some e ∧ e.code = "EBUSY") →
      writeWorkbookWithRetry fault =
        .errBusy busyMessage "EBUSY" [1500, 3000, 4500, 6000]) ∧
    (∀ e, fault 1 = some e → e.code ≠ "EBUSY" →
      writeWorkbookWithRetry fault = .errOther e []) := by
  refine ⟨?_, ?_, ?_⟩
  · intro hk hb hnone
    have h := writeAttempts_busy_run fault k 1 []
      (fun a h1 h2 => hb a h1 (by omega))
      (by rw [show 1 + k = k + 1 by omega]; exact hnone) (by omega)
    rw [writeWorkbookWithRetry, h, show 1 + k = k + 1 by omega]
    simp
  · intro hb
    have h := writeAttempts_busy_exhaust fault 4 1 [] hb (by decide)
    rw [writeWorkbookWithRetry, h]
    simp [WRITE_RETRY_DELAY_MS]
    decide
  · intro e hf hc
    rw [writeWorkbookWithRetry]
    conv_lhs => rw [writeAttempts]
    simp [hf, hc, show ¬ WRITE_RETRIES < 1 by decide]

/-- A concrete fault model for the C5 witness: EBUSY on the first attempt,
success afterwards. -/
def exBusyOnceFault : Nat → Option JsErr :=
  fun a => if a = 1 then some ⟨"EBUSY", "resource busy"⟩ else none

/-- C5 witness: with one EBUSY failure then success, the write succeeds at
attempt 2 after a single 1500 ms delay. -/
theorem C5_write_retry_policy_witness :
    writeWorkbookWithRetry exBusyOnceFault = .ok 2 [1500] := by
  have h := (C5_write_retry_policy exBusyOnceFault 1).1 (by decide)
    (by
      intro a h1 h2
      have ha : a = 1 := by omega
      subst ha
      exact ⟨⟨"EBUSY", "resource busy"⟩, rfl, rfl⟩)
    (by rfl)
  simpa using h

/-- One unfolding of the classifier retry loop on a failed attempt. -/
lemma classifyLoop_error_step (oracle : Nat → AttemptOutcome)
    (maxRetries attempt : Nat) (delays : List Nat) (e : JsErr)
    (hle : attempt ≤ maxRetries) (he : oracle attempt = .error e) :
    classifyLoop oracle maxRetries attempt delays =
      classifyLoop oracle maxRetries (attempt + 1)
        (if isConnectionError e ∧ attempt < maxRetries then
          delays ++ [2 ^ (attempt - 1) * 1000]
        else delays) := by
  conv_lhs => rw [classifyLoop]
  simp [show ¬ maxRetries < attempt by omega, he]

/-- The classifier retry loop past the last attempt returns the default. -/
lemma classifyLoop_stop (oracle : Nat → AttemptOutcome)
    (maxRetries attempt : Nat) (delays : List Nat) (h : maxRetries < attempt) :
    classifyLoop oracle maxRetries attempt delays =
      { result := DEFAULT_CLASSIFICATION, delays := delays, attempts := attempt - 1 } := by
  rw [classifyLoop]
  simp [h]

/-- C6: `classifyWithOpenAI` never raises (it is a total function into
`ClassifyRun`), and:
(1) with an absent (empty) credential or one not starting with `sk-`, it
returns the default all-N/A classification with zero network attempts;
(2) with a well-formed credential, if every attempt up to the retry ceiling
(3) fails, it returns the default all-N/A classification after 3 attempts,
having slept an exponential backoff delay `2^(a-1) * 1000` ms after exactly
those non-final attempts `a` whose error is transient. -/
theorem C6_classifier_fail_soft (apiKey : String) (oracle : Nat → AttemptOutcome) :
    ((apiKey = "" ∨ ¬ strStartsWith apiKey "sk-") →
      classifyWithOpenAI apiKey oracle 3 =
        { result := DEFAULT_CLASSIFICATION, delays := [], attempts := 0 }) ∧
    (∀ e1 e2 e3, apiKey ≠ "" → strStartsWith apiKey "sk-" →
      oracle 1 = .error e1 → oracle 2 = .error e2 → oracle 3 = .error e3 →
      classifyWithOpenAI apiKey oracle 3 =
        { result := DEFAULT_CLASSIFICATION,
          delays := [(1, e1), (2, e2)].filterMap (fun p =>
            if isConnectionError p.2 then some (2 ^ (p.1 - 1) * 1000) else none),
          attempts := 3 }) := by
  constructor
  · intro hbad
    rcases hbad with h | h
    · simp [classifyWithOpenAI, h]
    · rw [classifyWithOpenAI]
      by_cases hk : apiKey = ""
      · simp [hk]
      · simp [hk, h]
  · intro e1 e2 e3 hne hsk h1 h2 h3
    rw [classifyWithOpenAI]
    rw [if_neg hne, if_neg (by simpa using hsk)]
    rw [classifyLoop_error_step oracle 3 1 [] e1 (by omega) h1]
    rw [classifyLoop_error_step oracle 3 2 _ e2 (by omega) h2]
    rw [classifyLoop_error_step oracle 3 3 _ e3 (by omega) h3]
    rw [classifyLoop_stop oracle 3 4 _ (by omega)]
    by_cases hc1 : isConnectionError e1 <;> by_cases hc2 : isConnectionError e2 <;>
      simp [hc1, hc2, List.filterMap]

/-- A concrete always-failing transient oracle for the C6 witness. -/
def exTimeoutOracle : Nat → AttemptOutcome :=
  fun _ => .error ⟨"ETIMEDOUT", "Request timeout"⟩

/-- C6 witness: an empty credential yields the default with no attempts, and
a well-formed credential with three timeouts yields the default after 3
attempts with backoff delays 1000 ms and 2000 ms. -/
theorem C6_classifier_fail_soft_witness :
    classifyWithOpenAI "" exTimeoutOracle 3 =
      { result := DEFAULT_CLASSIFICATION, delays := [], attempts := 0 } ∧
    classifyWithOpenAI "sk-test" exTimeoutOracle 3 =
      { result := DEFAULT_CLASSIFICATION, delays := [1000, 2000], attempts := 3 } := by
  constructor
  · exact (C6_classifier_fail_soft "" exTimeoutOracle).1 (Or.inl rfl)
  · have h := (C6_classifier_fail_soft "sk-test" exTimeoutOracle).2
      ⟨"ETIMEDOUT", "Request timeout"⟩ ⟨"ETIMEDOUT", "Request timeout"⟩
      ⟨"ETIMEDOUT", "Request timeout"⟩
      (by decide) (by decide) rfl rfl rfl
    rw [h]
    simp [List.filterMap]
    decide

/-- Validation against a closed list with a default that is itself in the
list stays in the list. -/
lemma ite_mem_self (s dflt : String) (L : List String) (hd : dflt ∈ L) :
    (if s ∈ L then s else dflt) ∈ L := by
  split_ifs with h
  · exact h
  · exact hd

/-- The industry coercion lands in `{finance, healthcare, N/A}` (the empty
string accepted by the check is rewritten to `N/A`). -/
lemma industry_coercion_mem (s : String) :
    (if s ∈ validIndustry then (if s = "" then "N/A" else s) else "N/A") ∈
      ["finance", "healthcare", "N/A"] := by
  by_cases h : s ∈ validIndustry
  · rw [if_pos h]
    rcases (by simpa [validIndustry] using h) with rfl | rfl | rfl | rfl <;> decide
  · rw [if_neg h]
    decide

/-- The level coercion lands in the closed level vocabulary without the
misspelling (`Principle` is rewritten to `Principal`). -/
lemma level_coercion_mem (s : String) :
    (if s ∈ LEVEL_VALUES then (if s = "Principle" then "Principal" else s) else "N/A") ∈
      ["Middle", "Senior", "Staff", "Principal", "Lead", "Architect", "N/A"] := by
  by_cases h : s ∈ LEVEL_VALUES
  · rw [if_pos h]
    rcases (by simpa [LEVEL_VALUES] using h) with rfl | rfl | rfl | rfl | rfl | rfl | rfl | rfl <;>
      decide
  · rw [if_neg h]
    decide

/-- A reply whose `bestStack` is a nonempty string outside the stack
vocabulary (the C2 counterexample input). -/
def exBadStackReply : ParsedReply :=
  { remote := .jstr "Remote", bestStack := .jstr "Quantum",
    allPossibleStacks := .jarr [], hasSpecialPhrase := .jbool false,
    matchedSpecialPhrases := .jarr [], industry := .jstr "N/A",
    annualSalary := .jstr "N/A", levelField := .jstr "Senior" }

/-- C2 counterexample: `bestStack` is not validated against its closed
vocabulary.  A reply carrying `bestStack: "Quantum"` — a nonempty string
outside `STACK_LIST` — is passed through trimmed, so the validated
classification's `bestStack` is neither a stack from the list nor `N/A`. -/
theorem C2_counterexample :
    (validateReply exBadStackReply).bestStack ∉ "N/A" :: STACK_LIST := by
  decide

/-- C2 (amended): after validation, `remote`, `industry`, `annualSalary`
and `levelField` are each members of their closed vocabularies, with
out-of-vocabulary or non-string values coerced to `N/A` and `"Principle"`
normalized to `"Principal"`; `bestStack`, however, is only coerced to
`N/A` when missing, non-string or blank — any other string is passed
through trimmed without a vocabulary check. -/
theorem C2_enum_validation (p : ParsedReply) :
    (validateReply p).remote ∈ validRemote ∧
    (validateReply p).industry ∈ ["finance", "healthcare", "N/A"] ∧
    (validateReply p).annualSalary ∈ SALARY_BUCKETS ∧
    (validateReply p).levelField ∈
      ["Middle", "Senior", "Staff", "Principal", "Lead", "Architect", "N/A"] ∧
    (p.levelField = .jstr "Principle" → (validateReply p).levelField = "Principal") ∧
    ((validateReply p).bestStack = "N/A" ∨
      ∃ s, p.bestStack = .jstr s ∧ jsTrim s ≠ "" ∧ (validateReply p).bestStack = jsTrim s) := by
  refine ⟨?_, ?_, ?_, ?_, ?_, ?_⟩
  · rcases hv : p.remote with _ | b | n | s | xs <;> simp [validateReply, hv, validRemote]
    exact (by simpa [validRemote] using ite_mem_self s "N/A" validRemote (by decide))
  · rcases hv : p.industry with _ | b | n | s | xs <;> simp [validateReply, hv]
    exact (by simpa using industry_coercion_mem s)
  · rcases hv : p.annualSalary with _ | b | n | s | xs <;>
      simp [validateReply, hv, SALARY_BUCKETS]
    exact (by simpa [SALARY_BUCKETS] using ite_mem_self s "N/A" SALARY_BUCKETS (by decide))
  · rcases hv : p.levelField with _ | b | n | s | xs <;> simp [validateReply, hv]
    exact (by simpa using level_coercion_mem s)
  · intro hv
    simp [validateReply, hv, LEVEL_VALUES]
  · rcases hv : p.bestStack with _ | b | n | s | xs
    · exact Or.inl (by simp [validateReply, hv])
    · exact Or.inl (by simp [validateReply, hv])
    · exact Or.inl (by simp [validateReply, hv])
    · by_cases ht : jsTrim s = ""
      · exact Or.inl (by simp [validateReply, hv, ht])
      · exact Or.inr ⟨s, by simp [hv], ht, by simp [validateReply, hv, ht]⟩
    · exact Or.inl (by simp [validateReply, hv])

/-- A reply whose `level` field carries the misspelling `"Principle"`. -/
def exPrincipleReply : ParsedReply :=
  { remote := .jstr "Hybrid", bestStack := .jstr "Backend",
    allPossibleStacks := .jarr ["Backend"], hasSpecialPhrase := .jbool false,
    matchedSpecialPhrases := .jarr [], industry := .jstr "finance",
    annualSalary := .jstr "100K <", levelField := .jstr "Principle" }

/-- C2 witness: on a concrete reply carrying `level: "Principle"`, the
validated level is `"Principal"` and the validated remote is in its closed
vocabulary. -/
theorem C2_enum_validation_witness :
    (validateReply exPrincipleReply).levelField = "Principal" ∧
    (validateReply exPrincipleReply).remote ∈ validRemote :=
  ⟨(C2_enum_validation exPrincipleReply).2.2.2.2.1 rfl,
   (C2_enum_validation exPrincipleReply).1⟩

/-- Looking up the key just set finds the new value. -/
lemma rowLookup_setKey_self (r : Row) (k v : String) :
    rowLookup (setKey r k v) k = some v := by
  induction r with
  | nil => simp [setKey, rowLookup]
  | cons hd tl ih =>
    by_cases h : hd.1 = k
    · simp [setKey, rowLookup, h]
    · simp only [setKey]
      rw [if_neg (by simpa using h)]
      simpa [rowLookup, List.find?, h] using ih

/-- Setting one key leaves every other key's lookup unchanged. -/
lemma rowLookup_setKey_other (r : Row) (k v k' : String) (h : k' ≠ k) :
    rowLookup (setKey r k v) k' = rowLookup r k' := by
  induction r with
  | nil => simp [setKey, rowLookup, List.find?, Ne.symm h]
  | cons hd tl ih =>
    rcases hd with ⟨k0, v0⟩
    by_cases h2 : k0 = k
    · subst h2
      simp [setKey, rowLookup, List.find?, Ne.symm h]
    · simp only [setKey, if_neg h2]
      by_cases h3 : k0 = k'
      · simp [rowLookup, List.find?, h3]
      · simpa [rowLookup, List.find?, h3] using ih

/-- The eleven output columns of a merged row hold exactly the merged
values. -/
lemma mergeRow_columns (row : Row) (today link refinedLink : String)
    (c : Classification) :
    rowLookup (mergeRow row today link refinedLink c) "Date" = some today ∧
    rowLookup (mergeRow row today link refinedLink c) "Status" = some "Not Applied" ∧
    rowLookup (mergeRow row today link refinedLink c) "Link" =
      some (if refinedLink = "" then link else refinedLink) ∧
    rowLookup (mergeRow row today link refinedLink c) "Remote" = some c.remote ∧
    rowLookup (mergeRow row today link refinedLink c) "BestStack" = some c.bestStack ∧
    rowLookup (mergeRow row today link refinedLink c) "AllPossibleStacks" =
      some (String.intercalate ", " c.allPossibleStacks) ∧
    rowLookup (mergeRow row today link refinedLink c) "SecretRequired" =
      some (if c.hasSpecialPhrase then "Yes" else "No") ∧
    rowLookup (mergeRow row today link refinedLink c) "GovernanceAndSecurityPhrases" =
      some (String.intercalate "; " c.matchedSpecialPhrases) ∧
    rowLookup (mergeRow row today link refinedLink c) "Industry" = some c.industry ∧
    rowLookup (mergeRow row today link refinedLink c) "AnnualSalary" = some c.annualSalary ∧
    rowLookup (mergeRow row today link refinedLink c) "Level" = some c.levelField := by
  simp only [mergeRow, setKeys, List.foldl]
  refine ⟨?_, ?_, ?_, ?_, ?_, ?_, ?_, ?_, ?_, ?_, ?_⟩ <;>
    simp [rowLookup_setKey_self, rowLookup_setKey_other]

/-- C7: a row whose trimmed link is empty (or missing) is processed without
any fetch or classify call, its merged row is the original row augmented
with the default classification, and every classification output column of
that merged row carries its default/N-A value (so the row is still merged
and persisted, not treated as an error). -/
theorem C7_empty_link_row (row : Row) (today : String) (fetch : String → String)
    (classify : String → String → Classification)
    (h : jsTrim ((rowLookup row "Link").getD "") = "") :
    processRow row today fetch classify =
      { merged := mergeRow row today "" "" DEFAULT_CLASSIFICATION,
        fetched := [], classified := [] } ∧
    rowLookup (processRow row today fetch classify).merged "Remote" = some "N/A" ∧
    rowLookup (processRow row today fetch classify).merged "BestStack" = some "N/A" ∧
    rowLookup (processRow row today fetch classify).merged "AllPossibleStacks" = some "" ∧
    rowLookup (processRow row today fetch classify).merged "SecretRequired" = some "No" ∧
    rowLookup (processRow row today fetch classify).merged "GovernanceAndSecurityPhrases" =
      some "" ∧
    rowLookup (processRow row today fetch classify).merged "Industry" = some "N/A" ∧
    rowLookup (processRow row today fetch classify).merged "AnnualSalary" = some "N/A" ∧
    rowLookup (processRow row today fetch classify).merged "Level" = some "N/A" := by
  have hp : processRow row today fetch classify =
      { merged := mergeRow row today "" "" DEFAULT_CLASSIFICATION,
        fetched := [], classified := [] } := by
    rw [processRow]
    simp [h]
  refine ⟨hp, ?_⟩
  rw [hp]
  have hm := mergeRow_columns row today "" "" DEFAULT_CLASSIFICATION
  simpa [DEFAULT_CLASSIFICATION, String.intercalate] using
    ⟨hm.2.2.2.1, hm.2.2.2.2.1, hm.2.2.2.2.2.1, hm.2.2.2.2.2.2.1, hm.2.2.2.2.2.2.2.1,
     hm.2.2.2.2.2.2.2.2.1, hm.2.2.2.2.2.2.2.2.2.1, hm.2.2.2.2.2.2.2.2.2.2⟩

/-- A concrete linkless row for the C7 witness. -/
def exLinklessRow : Row :=
  [("Title", "Backend Engineer"), ("Link", "")]

/-- C7 witness: the concrete linkless row is processed with no fetch and no
classify call and a default Remote column. -/
theorem C7_empty_link_row_witness :
    processRow exLinklessRow "1/1/2026" (fun _ => "page") (fun _ _ => DEFAULT_CLASSIFICATION) =
      { merged := mergeRow exLinklessRow "1/1/2026" "" "" DEFAULT_CLASSIFICATION,
        fetched := [], classified := [] } ∧
    rowLookup (processRow exLinklessRow "1/1/2026" (fun _ => "page")
        (fun _ _ => DEFAULT_CLASSIFICATION)).merged "Remote" = some "N/A" := by
  have h := C7_empty_link_row exLinklessRow "1/1/2026" (fun _ => "page")
    (fun _ _ => DEFAULT_CLASSIFICATION) (by decide)
  exact ⟨h.1, h.2.1⟩

/-- Sub-frame extraction events are never browser teardown events. -/
lemma frameEvent_ne_closeBrowser (f : Except JsErr String) :
    frameEvent f ≠ FetchEv.closeBrowser := by
  cases f <;> simp [frameEvent]

/-- A fully successful fetch environment for the C8 counterexample. -/
def exFetchEnv : FetchEnv :=
  { launchErr := none, gotoErr := none, mainText := "About the role",
    frames := [.ok "Apply below", .error ⟨"Err", "cross-origin frame"⟩] }

/-- C8 counterexample: on a concrete fully successful run, the rendering
session is not fully torn down — the trace of performed actions never
contains a browser close, so the claim that both browser and page are torn
down after extraction is false. -/
theorem C8_counterexample :
    FetchEv.closeBrowser ∉ (fetchPageContent exFetchEnv "https://x.com/job/1").2 := by
  decide

/-- C8 (amended): `fetchPageContent` never closes the browser at all; the
page is closed (only) on the success path after extraction; and on any
internal failure (launch or navigation throwing) the error is logged and
the empty string is returned to the caller rather than raising, with no
page teardown either. -/
theorem C8_fetch_teardown (env : FetchEnv) (url : String) :
    FetchEv.closeBrowser ∉ (fetchPageContent env url).2 ∧
    (env.launchErr = none → env.gotoErr = none →
      FetchEv.closePage ∈ (fetchPageContent env url).2) ∧
    (env.launchErr ≠ none ∨ env.gotoErr ≠ none →
      (fetchPageContent env url).1 = "" ∧
      FetchEv.warnLog ∈ (fetchPageContent env url).2 ∧
      FetchEv.closePage ∉ (fetchPageContent env url).2) := by
  refine ⟨?_, ?_, ?_⟩
  · rcases hl : env.launchErr with _ | e
    · rcases hg : env.gotoErr with _ | e2
      · simp only [fetchPageContent, hl, hg]
        simp [scrollEvents, List.mem_map]
        rintro f - hf
        exact frameEvent_ne_closeBrowser f hf
      · simp [fetchPageContent, hl, hg]
    · simp [fetchPageContent, hl]
  · intro hl hg
    simp [fetchPageContent, hl, hg]
  · intro hfail
    rcases hl : env.launchErr with _ | e
    · rcases hg : env.gotoErr with _ | e2
      · rcases hfail with h | h
        · exact absurd hl h
        · exact absurd hg h
      · simp [fetchPageContent, hl, hg]
    · simp [fetchPageContent, hl]

/-- A failing fetch environment (navigation throws) for the C8 witness. -/
def exFailFetchEnv : FetchEnv :=
  { launchErr := none, gotoErr := some ⟨"TimeoutError", "Timeout 300000ms exceeded"⟩,
    mainText := "", frames := [] }

/-- C8 witness: the amended teardown theorem applied to a successful run and
to a failed navigation. -/
theorem C8_fetch_teardown_witness :
    FetchEv.closePage ∈ (fetchPageContent exFetchEnv "https://x.com/job/1").2 ∧
    (fetchPageContent exFailFetchEnv "https://x.com/job/1").1 = "" := by
  constructor
  · exact (C8_fetch_teardown exFetchEnv "https://x.com/job/1").2.1 rfl rfl
  · exact ((C8_fetch_teardown exFailFetchEnv "https://x.com/job/1").2.2
      (Or.inr (by simp [exFailFetchEnv]))).1

/-- C4: the normalizer applies its rules in priority order.  For every raw
string: if it does not parse as a URL it is returned unchanged; if it parses
and the host contains the apply-proxy domain `applytojob.com` the result is
`origin + pathname`; else if the path contains `"/apply"` (the spec's
"/apply segment", read as the substring occurrence the code tests with
`includes`/`indexOf`) the path is truncated at the start of its first
occurrence; else the result is `origin + pathname`. -/
theorem C4_normalizer_priority (s : String) :
    (parseURL s.data = none → refineLink s = s) ∧
    (∀ u, parseURL s.data = some u →
      ((containsSeq u.host applyToJobDomain = true →
          refineLink s = ⟨u.originL ++ u.pathname⟩) ∧
       (containsSeq u.host applyToJobDomain = false →
          ∀ idx, firstOcc applySeg u.pathname = some idx →
            refineLink s = ⟨u.originL ++ u.pathname.take idx⟩) ∧
       (containsSeq u.host applyToJobDomain = false →
          firstOcc applySeg u.pathname = none →
            refineLink s = ⟨u.originL ++ u.pathname⟩))) := by
  constructor
  · intro h
    simp [refineLink, refineList, h]
  · intro u hu
    refine ⟨?_, ?_, ?_⟩
    · intro hatj
      simp [refineLink, refineList, hu, hatj]
    · intro hatj idx hidx
      simp [refineLink, refineList, hu, hatj, hidx]
    · intro hatj hidx
      simp [refineLink, refineList, hu, hatj, hidx]

/-- C4 witness: the priority rules applied to a concrete truncating URL and
a concrete non-URL string. -/
theorem C4_normalizer_priority_witness :
    refineLink "https://jobs.example.com/posting/42/apply/step1" =
      "https://jobs.example.com/posting/42" ∧
    refineLink "not a url" = "not a url" := by
  constructor
  · have h := ((C4_normalizer_priority "https://jobs.example.com/posting/42/apply/step1").2
      ⟨"https".data, "jobs.example.com".data, "/posting/42/apply/step1".data⟩
      (by decide)).2.1 (by decide) 11 (by decide)
    rw [h]
    decide
  · exact (C4_normalizer_priority "not a url").1 (by decide)

/-- `takeWhile` walks through a fully-satisfying prefix. -/
lemma takeWhile_append_all (pred : Char → Bool) (l m : List Char)
    (h : l.all pred = true) :
    (l ++ m).takeWhile pred = l ++ m.takeWhile pred := by
  induction l with
  | nil => simp
  | cons c cs ih =>
    simp only [List.all_cons, Bool.and_eq_true] at h
    simp [List.takeWhile, h.1, ih h.2]

/-- `dropWhile` discards a fully-satisfying prefix. -/
lemma dropWhile_append_all (pred : Char → Bool) (l m : List Char)
    (h : l.all pred = true) :
    (l ++ m).dropWhile pred = m.dropWhile pred := by
  induction l with
  | nil => simp
  | cons c cs ih =>
    simp only [List.all_cons, Bool.and_eq_true] at h
    simp [List.dropWhile, h.1, ih h.2]

/-- The first occurrence of a present prefix is at position 0. -/
lemma firstOcc_of_isPref (sep l : List Char) (h : sep.isPrefixOf l = true) :
    firstOcc sep l = some 0 := by
  cases l <;> simp [firstOcc, h]

/-- A prefix of a `take`-prefix is a prefix of the whole list. -/
lemma pref_of_pref_take (l1 : List Char) :
    ∀ (l2 : List Char) (n : Nat), l1.isPrefixOf (l2.take n) = true →
      l1.isPrefixOf l2 = true := by
  induction l1 with
  | nil => intro l2 n _; simp [List.isPrefixOf]
  | cons a as ih =>
    intro l2 n h
    cases l2 with
    | nil => simp at h
    | cons b bs =>
      cases n with
      | zero => simp [List.isPrefixOf] at h
      | succ m =>
        simp only [List.take, List.isPrefixOf, Bool.and_eq_true] at h ⊢
        exact ⟨h.1, ih bs m h.2⟩

/-- An empty list has no nonempty prefix. -/
lemma isPref_nil_false (sep : List Char) (hs : sep ≠ []) :
    sep.isPrefixOf ([] : List Char) = false := by
  cases sep with
  | nil => exact absurd rfl hs
  | cons a as => rfl

/-- Minimality of `firstOcc`: before the first occurrence there is none. -/
lemma firstOcc_take_none (sep : List Char) (hs : sep ≠ []) :
    ∀ (l : List Char) (idx : Nat), firstOcc sep l = some idx →
      firstOcc sep (l.take idx) = none := by
  intro l
  induction l with
  | nil =>
    intro idx h
    rw [firstOcc, isPref_nil_false sep hs] at h
    simp at h
  | cons c cs ih =>
    intro idx h
    by_cases hp : sep.isPrefixOf (c :: cs) = true
    · rw [firstOcc, if_pos hp] at h
      obtain rfl : idx = 0 := by simpa using h.symm
      simp [firstOcc, isPref_nil_false sep hs]
    · rw [firstOcc, if_neg hp] at h
      obtain ⟨j, hj, rfl⟩ := Option.map_eq_some.mp h
      have htake : (c :: cs).take (j + 1) = c :: cs.take j := rfl
      rw [htake, firstOcc]
      have hp2 : sep.isPrefixOf (c :: cs.take j) = false := by
        by_contra hcon
        have : sep.isPrefixOf (c :: cs.take j) = true := by
          revert hcon
          cases sep.isPrefixOf (c :: cs.take j) <;> simp
        exact hp (pref_of_pref_take sep (c :: cs) (j + 1) this)
      rw [hp2]
      simp [ih j hj]

/-- Prepending colon-free characters shifts the first `"://"` occurrence. -/
lemma firstOcc_sep_prepend (pre l : List Char) (hp : ∀ c ∈ pre, c ≠ ':') :
    firstOcc [':', '/', '/'] (pre ++ l) =
      (firstOcc [':', '/', '/'] l).map (· + pre.length) := by
  induction pre with
  | nil =>
    cases hfo : firstOcc [':', '/', '/'] l <;> simp [hfo]
  | cons c cs ih =>
    have hc : c ≠ ':' := hp c (List.mem_cons_self c cs)
    have hpre : ([':', '/', '/'] : List Char).isPrefixOf (c :: (cs ++ l)) = false := by
      simp [List.isPrefixOf, Ne.symm hc]
    rw [List.cons_append, firstOcc, if_neg (by simp [hpre])]
    rw [ih (fun d hd => hp d (List.mem_cons_of_mem c hd))]
    cases firstOcc [':', '/', '/'] l <;> simp [Nat.add_assoc]

/-- A valid scheme contains no colon. -/
lemma schemeOk_no_colon (sch : List Char) (h : schemeOk sch = true) :
    ∀ c ∈ sch, c ≠ ':' := by
  cases sch with
  | nil => simp [schemeOk] at h
  | cons a as =>
    simp only [schemeOk, Bool.and_eq_true] at h
    intro c hc heq
    rcases List.mem_cons.mp hc with rfl | hmem
    · rw [heq] at h
      exact absurd h.1 (by decide)
    · have := List.all_eq_true.mp h.2 c hmem
      rw [heq] at this
      exact absurd this (by decide)

/-- `takeWhile` keeps a fully-satisfying list whole. -/
lemma takeWhile_all_self (pred : Char → Bool) (l : List Char)
    (h : l.all pred = true) : l.takeWhile pred = l := by
  have := takeWhile_append_all pred l [] h
  simpa using this

/-- The head surviving `dropWhile` fails the predicate. -/
lemma dropWhile_head_false (pred : Char → Bool) :
    ∀ (l : List Char) (c : Char) (cs : List Char),
      l.dropWhile pred = c :: cs → pred c = false := by
  intro l
  induction l with
  | nil => intro c cs h; simp [List.dropWhile] at h
  | cons a as ih =>
    intro c cs h
    by_cases hp : pred a
    · rw [List.dropWhile_cons_of_pos hp] at h
      exact ih c cs h
    · rw [List.dropWhile_cons_of_neg hp] at h
      obtain ⟨rfl, -⟩ := List.cons.inj h
      exact Bool.of_not_eq_true hp

/-- A cons-shaped `takeWhile` starts with the list's own head. -/
lemma takeWhile_eq_cons (pred : Char → Bool) (l : List Char) (c : Char)
    (cs : List Char) (h : l.takeWhile pred = c :: cs) :
    l.head? = some c := by
  cases l with
  | nil => simp [List.takeWhile] at h
  | cons a as =>
    by_cases hp : pred a
    · rw [List.takeWhile_cons_of_pos hp] at h
      obtain ⟨rfl, -⟩ := List.cons.inj h
      rfl
    · rw [List.takeWhile_cons_of_neg hp] at h
      simp at h

/-- Round trip: re-parsing `scheme ++ "://" ++ host ++ path` recovers the
same scheme and host, and the same path (`"/"` when the path is empty). -/
lemma parseURL_roundtrip (sch host p : List Char)
    (hs : schemeOk sch = true) (hh : host ≠ [])
    (hhc : host.all hostChar = true)
    (hp : p = [] ∨ ∃ q, p = '/' :: q)
    (hpc : p.all pathChar = true) :
    parseURL (sch ++ [':', '/', '/'] ++ host ++ p) =
      some ⟨sch, host, if p.isEmpty then ['/'] else p⟩ := by
  have hassoc : sch ++ [':', '/', '/'] ++ host ++ p =
      sch ++ ([':', '/', '/'] ++ (host ++ p)) := by
    simp [List.append_assoc]
  have hfo : firstOcc [':', '/', '/'] (sch ++ ([':', '/', '/'] ++ (host ++ p))) =
      some sch.length := by
    rw [firstOcc_sep_prepend sch _ (schemeOk_no_colon sch hs)]
    rw [firstOcc_of_isPref _ _ (by simp [List.isPrefixOf])]
    simp
  have htake : (sch ++ ([':', '/', '/'] ++ (host ++ p))).take sch.length = sch :=
    List.take_left sch _
  have hdrop : (sch ++ ([':', '/', '/'] ++ (host ++ p))).drop (sch.length + 3) =
      host ++ p := by
    have hre : sch ++ ([':', '/', '/'] ++ (host ++ p)) =
        (sch ++ [':', '/', '/']) ++ (host ++ p) := by
      simp [List.append_assoc]
    have hlen : (sch ++ [':', '/', '/']).length = sch.length + 3 := by simp
    rw [hre, ← hlen]
    exact List.drop_left _ _
  have hpreTW : (host ++ p).takeWhile hostChar = host := by
    rw [takeWhile_append_all hostChar host p hhc]
    rcases hp with rfl | ⟨q, rfl⟩
    · simp
    · simp [List.takeWhile, hostChar]
  have hpreDW : (host ++ p).dropWhile hostChar = p := by
    rw [dropWhile_append_all hostChar host p hhc]
    rcases hp with rfl | ⟨q, rfl⟩
    · simp
    · simp [List.dropWhile, hostChar]
  have hhe : host.isEmpty = false := by
    cases host with
    | nil => exact absurd rfl hh
    | cons a as => rfl
  rw [hassoc]
  simp only [parseURL, hfo, htake, hdrop, hs, if_true, hpreTW, hpreDW, hhe,
    Bool.false_eq_true, if_false]
  rcases hp with rfl | ⟨q, rfl⟩
  · simp
  · rw [takeWhile_all_self pathChar ('/' :: q) hpc]

/-- Well-formedness of every successfully parsed URL: valid scheme,
nonempty host of host characters, and a nonempty slash-led path free of
query/fragment characters. -/
lemma parseURL_sound (s : List Char) (u : URLParts) (h : parseURL s = some u) :
    schemeOk u.scheme = true ∧ u.host ≠ [] ∧ u.host.all hostChar = true ∧
    u.pathname ≠ [] ∧ u.pathname.head? = some '/' ∧
    u.pathname.all pathChar = true := by
  rw [parseURL] at h
  cases hfo : firstOcc [':', '/', '/'] s with
  | none => rw [hfo] at h; simp at h
  | some i =>
    rw [hfo] at h
    simp only at h
    by_cases hok : schemeOk (s.take i)
    · rw [if_pos hok] at h
      by_cases hemp : ((s.drop (i + 3)).takeWhile hostChar).isEmpty
      · rw [if_pos hemp] at h; simp at h
      · rw [if_neg hemp] at h
        simp only [Option.some.injEq] at h
        subst h
        have hhead : ∀ c cs,
            ((s.drop (i + 3)).dropWhile hostChar).takeWhile pathChar = c :: cs →
            c = '/' := by
          intro c cs hpc
          have hc1 : pathChar c = true := by
            have hmem : c ∈ ((s.drop (i + 3)).dropWhile hostChar).takeWhile pathChar := by
              rw [hpc]
              exact List.mem_cons_self c cs
            exact List.mem_takeWhile_imp hmem
          have hc2 : ((s.drop (i + 3)).dropWhile hostChar).head? = some c :=
            takeWhile_eq_cons pathChar _ c cs hpc
          have hc3 : hostChar c = false := by
            cases hd : (s.drop (i + 3)).dropWhile hostChar with
            | nil => rw [hd] at hc2; simp at hc2
            | cons d ds =>
              rw [hd] at hc2
              obtain rfl : d = c := by simpa using hc2
              exact dropWhile_head_false hostChar _ d ds hd
          simp only [pathChar, Bool.and_eq_true, decide_eq_true_eq] at hc1
          simp only [hostChar, Bool.and_eq_false_iff, decide_eq_false_iff_not,
            Decidable.not_not] at hc3
          rcases hc3 with (h3 | h3) | h3
          · exact h3
          · exact absurd h3 hc1.1
          · exact absurd h3 hc1.2
        refine ⟨hok, ?_, ?_, ?_, ?_, ?_⟩ <;> dsimp only
        · intro hnil
          rw [hnil] at hemp
          exact hemp rfl
        · exact List.all_eq_true.mpr fun c hc => List.mem_takeWhile_imp hc
        · split
          · simp
          · next hpe =>
            intro hnil
            rw [hnil] at hpe
            exact hpe rfl
        · split
          · rfl
          · next hpe =>
            cases hpc : ((s.drop (i + 3)).dropWhile hostChar).takeWhile pathChar with
            | nil => rw [hpc] at hpe; exact absurd rfl hpe
            | cons c cs =>
              rw [hhead c cs hpc]
              rfl
        · split
          · decide
          · exact List.all_eq_true.mpr fun c hc => List.mem_takeWhile_imp hc
    · rw [if_neg hok] at h; simp at h

/-- The parsed path is slash-led (cons form of `parseURL_sound`). -/
lemma parseURL_path_cons (s : List Char) (u : URLParts)
    (h : parseURL s = some u) : ∃ q, u.pathname = '/' :: q := by
  obtain ⟨-, -, -, hpn, hph, -⟩ := parseURL_sound s u h
  cases hp : u.pathname with
  | nil => exact absurd hp hpn
  | cons a as =>
    rw [hp] at hph
    obtain rfl : a = '/' := by simpa using hph
    exact ⟨as, rfl⟩

/-- Re-parsing `origin + p` of a parsed URL recovers the same scheme and
host together with the nonempty slash-led path `p`. -/
lemma parseURL_origin_append (s : List Char) (u : URLParts)
    (h : parseURL s = some u) (p : List Char) (q : List Char)
    (hq : p = '/' :: q) (hpall : p.all pathChar = true) :
    parseURL (u.originL ++ p) = some ⟨u.scheme, u.host, p⟩ := by
  obtain ⟨hs, hh, hhc, -, -, -⟩ := parseURL_sound s u h
  have hrt := parseURL_roundtrip u.scheme u.host p hs hh hhc (Or.inr ⟨q, hq⟩) hpall
  have hio : p.isEmpty = false := by rw [hq]; rfl
  simpa [URLParts.originL, List.append_assoc, hio] using hrt

/-- Idempotence of the normalizer on char lists, away from the one failing
shape (a non-apply-proxy host whose path starts with `"/apply"`). -/
lemma refineList_idem (s : List Char) (u : URLParts) (h : parseURL s = some u)
    (hne : containsSeq u.host applyToJobDomain = true ∨
      firstOcc applySeg u.pathname ≠ some 0) :
    refineList (refineList s) = refineList s := by
  obtain ⟨-, -, -, -, -, hpc⟩ := parseURL_sound s u h
  obtain ⟨q0, hq0⟩ := parseURL_path_cons s u h
  by_cases hatj : containsSeq u.host applyToJobDomain
  · have h1 : refineList s = u.originL ++ u.pathname := by
      simp [refineList, h, hatj]
    have hrt := parseURL_origin_append s u h u.pathname q0 hq0 hpc
    rw [h1]
    simp [refineList, hrt, hatj]
  · cases hfo : firstOcc applySeg u.pathname with
    | none =>
      have h1 : refineList s = u.originL ++ u.pathname := by
        simp [refineList, h, hatj, hfo]
      have hrt := parseURL_origin_append s u h u.pathname q0 hq0 hpc
      rw [h1]
      simp [refineList, hrt, hatj, hfo]
    | some idx =>
      have hidx0 : idx ≠ 0 := by
        rcases hne with hcontra | hcontra
        · exact absurd hcontra (by simp [hatj])
        · intro h0
          rw [h0] at hfo
          exact hcontra hfo
      obtain ⟨j, rfl⟩ : ∃ j, idx = j + 1 := ⟨idx - 1, by omega⟩
      have hqcons : u.pathname.take (j + 1) = '/' :: q0.take j := by
        rw [hq0]
        rfl
      have hqall : (u.pathname.take (j + 1)).all pathChar = true := by
        apply List.all_eq_true.mpr
        intro c hc
        exact List.all_eq_true.mp hpc c (List.take_subset _ _ hc)
      have h1 : refineList s = u.originL ++ u.pathname.take (j + 1) := by
        simp [refineList, h, hatj, hfo]
      have hrt := parseURL_origin_append s u h (u.pathname.take (j + 1))
        (q0.take j) hqcons hqall
      have hfo2 : firstOcc applySeg (u.pathname.take (j + 1)) = none :=
        firstOcc_take_none applySeg (by decide) u.pathname (j + 1) hfo
      rw [h1]
      simp only [URLParts.originL, List.append_assoc, List.cons_append,
        List.nil_append] at hrt
      simp [refineList, hrt, hatj, hfo2, URLParts.originL]

/-- C9 counterexample: idempotence fails on a parseable URL.  The string
`https://jobs.example.com/apply` parses; normalizing it truncates the path
at `/apply`, yielding the bare origin `https://jobs.example.com`, and
normalizing again appends the default path, yielding
`https://jobs.example.com/` — a different string. -/
theorem C9_counterexample :
    (parseURL "https://jobs.example.com/apply".data).isSome = true ∧
    refineLink (refineLink "https://jobs.example.com/apply") ≠
      refineLink "https://jobs.example.com/apply" := by
  exact ⟨by decide, by decide⟩

/-- C9 (amended): the normalizer is idempotent on every string that parses
as a URL, except on the one failing shape in which the host is not an
apply-proxy and the parsed path begins with `"/apply"` (there the first
pass truncates to a bare origin and the second pass appends `"/"`).  For
every parse whose host contains `applytojob.com` or whose path's first
`"/apply"` occurrence is not at position 0, re-normalizing the normalized
link leaves it unchanged. -/
theorem C9_normalizer_idempotent (s : String) (u : URLParts)
    (h : parseURL s.data = some u)
    (hne : containsSeq u.host applyToJobDomain = true ∨
      firstOcc applySeg u.pathname ≠ some 0) :
    refineLink (refineLink s) = refineLink s := by
  have hl := refineList_idem s.data u h hne
  show (⟨refineList (refineList s.data)⟩ : String) = ⟨refineList s.data⟩
  rw [hl]

/-- C9 witness: idempotence at a concrete URL whose path contains a
non-leading `/apply` segment. -/
theorem C9_normalizer_idempotent_witness :
    refineLink (refineLink "https://jobs.example.com/posting/42/apply/step1") =
      refineLink "https://jobs.example.com/posting/42/apply/step1" :=
  C9_normalizer_idempotent "https://jobs.example.com/posting/42/apply/step1"
    ⟨"https".data, "jobs.example.com".data, "/posting/42/apply/step1".data⟩
    (by decide) (Or.inr (by decide))

/-- `setKey` never loses a key. -/
lemma mem_headersOf_setKey (r : Row) (k v k' : String)
    (h : k' ∈ headersOf r) : k' ∈ headersOf (setKey r k v) := by
  induction r with
  | nil => simp [headersOf] at h
  | cons hd tl ih =>
    rcases hd with ⟨k0, v0⟩
    by_cases h2 : k0 = k
    · subst h2
      simp only [headersOf, List.map_cons] at h
      rcases List.mem_cons.mp h with rfl | hmem
      · simp [setKey, headersOf]
      · simp [setKey, headersOf]
        right
        simpa [headersOf] using hmem
    · simp only [setKey, if_neg h2]
      simp only [headersOf, List.map_cons] at h ⊢
      rcases List.mem_cons.mp h with rfl | hmem
      · exact List.mem_cons_self _ _
      · exact List.mem_cons_of_mem _ (by simpa [headersOf] using ih (by simpa [headersOf] using hmem))

/-- `setKeys` never loses a key. -/
lemma mem_headersOf_setKeys (kvs : List (String × String)) :
    ∀ (r : Row) (k' : String), k' ∈ headersOf r → k' ∈ headersOf (setKeys r kvs) := by
  induction kvs with
  | nil => intro r k' h; simpa [setKeys] using h
  | cons kv rest ih =>
    intro r k' h
    have h1 : k' ∈ headersOf (setKey r kv.1 kv.2) := mem_headersOf_setKey r kv.1 kv.2 k' h
    have := ih (setKey r kv.1 kv.2) k' h1
    simpa [setKeys] using this

/-- Merging a row preserves all its original column names. -/
lemma mem_headersOf_merged (row : Row) (today : String) (fetch : String → String)
    (classify : String → String → Classification) (k : String)
    (h : k ∈ headersOf row) :
    k ∈ headersOf (processRow row today fetch classify).merged := by
  rw [processRow]
  split
  · exact mem_headersOf_setKeys _ row k h
  · exact mem_headersOf_setKeys _ row k h

/-- Projection preserves the looked-up value of every projected column
(missing or empty cells becoming `""`). -/
lemma projectRow_lookup (H : List String) (r : Row) (k : String) (h : k ∈ H) :
    rowLookup (projectRow H r) k = some ((rowLookup r k).getD "") := by
  induction H with
  | nil => simp at h
  | cons h0 H' ih =>
    rcases List.mem_cons.mp h with rfl | hmem
    · simp [projectRow, rowLookup, List.find?]
    · by_cases heq : h0 = k
      · subst heq
        simp [projectRow, rowLookup, List.find?]
      · simp only [projectRow, List.map_cons]
        rw [rowLookup, List.find?]
        rw [decide_eq_false heq]
        exact ih hmem

/-- `headD` looks into the left part of an append when it is nonempty. -/
lemma headD_append_left (res : List Row) (l : List Row) (hne : res ≠ []) :
    (res ++ l).headD [] = res.headD [] := by
  cases res with
  | nil => exact absurd rfl hne
  | cons a tl => rfl

/-- The `i`-th snapshot produced by the orchestrator loop, for a nonempty
accumulated prefix: the accumulated merged rows, then the next `i+1` rows
merged, then the remainder projected onto the first merged row's headers. -/
lemma runLoop_get (today : String) (fetch : String → String)
    (classify : String → String → Classification) (rem : List Row) :
    ∀ (i : Nat) (res : List Row), res ≠ [] → i < rem.length →
      (runLoop today fetch classify res rem).get? i =
        some (res ++ (rem.take (i + 1)).map (fun r => (processRow r today fetch classify).merged) ++
          (rem.drop (i + 1)).map (projectRow (headersOf (res.headD [])))) := by
  induction rem with
  | nil => intro i res _ hi; simp at hi
  | cons r rest ih =>
    intro i res hne hi
    rw [runLoop]
    have hheadD : ((res ++ [(processRow r today fetch classify).merged]).headD []) =
        res.headD [] := headD_append_left res _ hne
    cases i with
    | zero =>
      simp only [List.get?_cons_zero, List.take, List.drop, Option.some.injEq, hheadD]
      simp [List.append_assoc]
    | succ i' =>
      simp only [List.get?_cons_succ]
      rw [ih i' (res ++ [(processRow r today fetch classify).merged])
        (by simp) (by simpa using hi)]
      rw [hheadD]
      simp [List.append_assoc]

/-- C1: after the orchestrator processes row `i`, the table written to
storage is exactly the merged (augmented) rows `0..i` followed by the
not-yet-processed rows `i+1..n-1` projected onto the output header set; and
in that projected suffix every original column of every unprocessed row
still carries its original value (missing/empty cells as `""`), i.e. the
original data of rows `i+1..n-1` is unmodified.  The hypothesis `hsame`
states that all rows share the first row's header set, which is how
`sheet_to_json` (with `defval`) delivers the table. -/
theorem C1_snapshot_invariant (r0 : Row) (rest : List Row) (today : String)
    (fetch : String → String) (classify : String → String → Classification)
    (i : Nat) (hi : i < (r0 :: rest).length)
    (hsame : ∀ r ∈ r0 :: rest, ∀ k ∈ headersOf r, k ∈ headersOf r0) :
    (runSnapshots (r0 :: rest) today fetch classify).get? i =
      some (((r0 :: rest).take (i + 1)).map
          (fun r => (processRow r today fetch classify).merged) ++
        ((r0 :: rest).drop (i + 1)).map
          (projectRow (headersOf (processRow r0 today fetch classify).merged))) ∧
    (∀ r ∈ (r0 :: rest).drop (i + 1), ∀ k ∈ headersOf r,
      rowLookup
        (projectRow (headersOf (processRow r0 today fetch classify).merged) r) k =
        some ((rowLookup r k).getD "")) := by
  constructor
  · rw [runSnapshots, runLoop]
    cases i with
    | zero =>
      simp [List.append_assoc]
    | succ i' =>
      simp only [List.get?_cons_succ]
      rw [runLoop_get today fetch classify rest i'
        ([] ++ [(processRow r0 today fetch classify).merged]) (by simp)
        (by simpa using hi)]
      simp [List.append_assoc]
  · intro r hr k hk
    have hk0 : k ∈ headersOf r0 :=
      hsame r (List.mem_of_mem_drop hr) k hk
    have hkm : k ∈ headersOf (processRow r0 today fetch classify).merged :=
      mem_headersOf_merged r0 today fetch classify k hk0
    exact projectRow_lookup _ r k hkm

/-- Two concrete rows for the C1 witness. -/
def exRowA : Row := [("Title", "Backend Engineer"), ("Link", "")]

/-- Second concrete row for the C1 witness. -/
def exRowB : Row := [("Title", "QA Engineer"), ("Link", "")]

/-- C1 witness: the snapshot written after processing row 0 of a concrete
two-row table is the merged first row followed by the projected second row,
and the projected second row keeps its original column values. -/
theorem C1_snapshot_invariant_witness :
    (runSnapshots [exRowA, exRowB] "1/1/2026" (fun _ => "")
        (fun _ _ => DEFAULT_CLASSIFICATION)).get? 0 =
      some ((([exRowA, exRowB].take 1).map
          (fun r => (processRow r "1/1/2026" (fun _ => "")
            (fun _ _ => DEFAULT_CLASSIFICATION)).merged)) ++
        (([exRowA, exRowB].drop 1).map
          (projectRow (headersOf (processRow exRowA "1/1/2026" (fun _ => "")
            (fun _ _ => DEFAULT_CLASSIFICATION)).merged)))) :=
  (C1_snapshot_invariant exRowA [exRowB] "1/1/2026" (fun _ => "")
    (fun _ _ => DEFAULT_CLASSIFICATION) 0 (by decide)
    (by
      intro r hr k hk
      rcases List.mem_cons.mp hr with rfl | hr2
      · exact hk
      · rcases List.mem_cons.mp hr2 with rfl | hr3
        · exact hk
        · simp at hr3)).1

end JobTrack
